import Mathlib

/-!
Verification development for the template compiler in
`build/build-report-components.js`.

The script reads an HTML document, walks every `template` element's content
tree and emits JavaScript source for functions that rebuild the equivalent
DOM fragment at runtime.  This file gives a shallow embedding of the
compiler: DOM nodes become an inductive type, the recursive `process`
walk becomes a pure state-passing function, and the generated artifact is
built as a plain string.  External capabilities (the DOM parser, the
argument serializer `serializeArguments` and the JS builtins
`JSON.stringify`, `String.prototype.trim`, regex replace and
`localeCompare`) are modelled by explicit executable definitions whose
semantics on the values actually passed matches the builtin.
-/

/-! ## JavaScript string primitives -/

/-- Test for the character class matched by the JavaScript regex `\s`
(which is also the set trimmed by `String.prototype.trim`). -/
def isJsWs (c : Char) : Bool :=
  c = ' ' || c = '\t' || c = '\n' || (c.toNat = 11) || (c.toNat = 12) ||
  c = '\r' || (c.toNat = 160) || (c.toNat = 0x1680) ||
  (0x2000 ≤ c.toNat && c.toNat ≤ 0x200a) ||
  (c.toNat = 0x2028) || (c.toNat = 0x2029) || (c.toNat = 0x202f) ||
  (c.toNat = 0x205f) || (c.toNat = 0x3000) || (c.toNat = 0xfeff)

/-- Model of `String.prototype.trim`: drop JS whitespace from both ends. -/
def jsTrim (s : String) : String :=
  ⟨((s.data.dropWhile isJsWs).reverse.dropWhile isJsWs).reverse⟩

/-- Helper for `collapseWsL`: the flag records whether the previous
character belonged to a whitespace run whose single replacement space has
already been emitted. -/
def collapseAux : Bool → List Char → List Char
  | _, [] => []
  | inRun, c :: rest =>
    if isJsWs c then
      if inRun then collapseAux true rest
      else ' ' :: collapseAux true rest
    else c :: collapseAux false rest

/-- Model of the JS call `textContent.replace(/\s+/g, ' ')` on a character
list: every maximal run of whitespace characters becomes one space. -/
def collapseWsL (l : List Char) : List Char := collapseAux false l

/-- String version of `collapseWsL`. -/
def collapseWs (s : String) : String := ⟨collapseWsL s.data⟩

/-- Model of the JS string method `join` / the template-literal
concatenation used throughout the script. -/
def joinWith (sep : String) : List String → String
  | [] => ""
  | [x] => x
  | x :: xs => x ++ sep ++ joinWith sep xs

/-- Hexadecimal digit character for `jsonEscapeChar`. -/
def hexDigit (n : Nat) : Char :=
  if n < 10 then Char.ofNat (48 + n) else Char.ofNat (87 + n)

/-- Escape of one character under the JS builtin `JSON.stringify`. -/
def jsonEscapeChar (c : Char) : String :=
  if c = '\x22' then "\\\x22"
  else if c = '\\' then "\\\\"
  else if c = '\n' then "\\n"
  else if c = '\r' then "\\r"
  else if c = '\t' then "\\t"
  else if c.toNat = 8 then "\\b"
  else if c.toNat = 12 then "\\f"
  else if c.toNat < 32 then
    "\\u00" ++ ⟨[hexDigit (c.toNat / 16), hexDigit (c.toNat % 16)]⟩
  else ⟨[c]⟩

/-- Model of the JS builtin `JSON.stringify` applied to a string value:
the double-quoted source literal denoting that string. -/
def jsonStringify (s : String) : String :=
  "\x22" ++ (s.data.map jsonEscapeChar).foldl (fun a b => a ++ b) "" ++ "\x22"

/-- ASCII uppercasing of a string, the effect of the JS
`toUpperCase`/DOM tag-name uppercasing on ASCII input. -/
def asciiUpper (s : String) : String := ⟨s.data.map Char.toUpper⟩

/-- Embedding of `upperFirst` (lines 22-24 of the script):
`str.charAt(0).toUpperCase() + str.substr(1)`; on the empty string both
pieces are empty. -/
def upperFirst (s : String) : String :=
  match s.data with
  | [] => ""
  | c :: rest => ⟨Char.toUpper c :: rest⟩

/-! ## The DOM tree model

Nodes of a parsed template content tree: elements (with namespace URI,
local name, class token list, ordered attribute list and child nodes),
text nodes and comment nodes.  A namespace URI of `""` stands for the JS
value `null` (both are falsy in the `isSvg` test).  The class tokens
model `el.classList`, whose `toString` is their space-joined string. -/

mutual
inductive DNode where
  | element (ns : String) (localName : String) (cls : List String)
      (attrs : List (String × String)) (children : DNodeList)
  | text (content : String)
  | comment (content : String)
inductive DNodeList where
  | nil
  | cons (head : DNode) (tail : DNodeList)
end

deriving instance DecidableEq for DNode
deriving instance DecidableEq for DNodeList

/-- Conversion from a plain list, convenient for writing examples. -/
def DNodeList.ofList : List DNode → DNodeList
  | [] => .nil
  | n :: rest => .cons n (DNodeList.ofList rest)

/-- Namespace URI of HTML elements produced by the parser. -/
def htmlNS : String := "http://www.w3.org/1999/xhtml"

/-- Namespace URI of SVG elements produced by the parser. -/
def svgNS : String := "http://www.w3.org/2000/svg"

/-- DOM `tagName` of an element: uppercased local name in the HTML
namespace, the bare local name elsewhere (as for SVG elements). -/
def tagNameOf (ns localName : String) : String :=
  if ns = htmlNS then asciiUpper localName else localName

/-- DOM `tagName` of a node when it is an element, `none` otherwise;
this models the `previousSiblingElement` / `nextSiblingElement`
computation of lines 99-106, which keeps a sibling only when its
`nodeType` is `ELEMENT_NODE`. -/
def siblingElementTag : Option DNode → Option String
  | some (.element ns localName _ _ _) => some (tagNameOf ns localName)
  | _ => none

/-- Embedding of the `allowJustWhitespace` test (lines 107-108): both
immediate siblings are element nodes and at least one of the two has tag
name `SPAN`. -/
def flankedBySpan (prev next : Option DNode) : Bool :=
  (siblingElementTag prev).isSome && (siblingElementTag next).isSome &&
    (siblingElementTag prev = some ("SPAN") ||
     siblingElementTag next = some ("SPAN"))

/-- Embedding of the text-node branch of `process` (lines 89-122).
Given the `tagName` of `childNode.parentElement` (`none` when
`parentElement` is null), the two immediate siblings and the node's text
content, it returns the entry pushed onto `childNodesToAppend`, or
`none` when the node is skipped by a `continue`. -/
def textAppendEntry (parentTag : Option String) (prev next : Option DNode)
    (content : String) : Option String :=
  match parentTag with
  | none => none
  | some ptag =>
    if content = "" then none
    else
      let allowJustWhitespace := flankedBySpan prev next
      if !allowJustWhitespace && jsTrim content = "" then none
      else
        let textContent :=
          if ptag = "PRE" || ptag = "STYLE" then content else collapseWs content
        some (jsonStringify textContent)

/-- Sample span element used in concrete checks. -/
def spanEl : DNode := .element htmlNS "span" [] [] .nil

/-- Sample div element used in concrete checks. -/
def divEl : DNode := .element htmlNS "div" [] [] .nil

example : textAppendEntry (some ("DIV")) (some spanEl) (some spanEl) " " =
    some (jsonStringify " ") := by decide

example : textAppendEntry (some ("DIV")) (some divEl) (some divEl) " " = none := by
  decide

example : textAppendEntry (some ("DIV")) (some spanEl) (some spanEl) "" = none := by
  decide

example : textAppendEntry (some ("DIV")) none none "a  b" =
    some ("\x22a b\x22") := by decide

example : textAppendEntry (some ("PRE")) none none "a  b" =
    some ("\x22a  b\x22") := by decide

/-! ## Element creation and attribute statements -/

/-- Model of the external helper `serializeArguments` from
`lighthouse-core/gather/driver/execution-context.js`: each (string)
argument is rendered with `JSON.stringify` and the renderings are joined
with commas. -/
def serializeArguments (args : List String) : String :=
  joinWith (",") (args.map jsonStringify)

/-- Decision `el.namespaceURI && el.namespaceURI.endsWith('/svg')` of
line 58; `""` models the JS `null` namespace. -/
def isSvgNS (ns : String) : Bool :=
  ns ≠ "" && List.isSuffixOf ("/svg").data ns.data

/-- Creation function selected on lines 63-71: `createElementNS` when the
namespace test succeeded, `createElement` otherwise. -/
def creationFnName (ns : String) : String :=
  if isSvgNS ns then "createElementNS" else "createElement"

/-- Argument list assembled on lines 64-71: tag name, then the class
string when truthy (pushed), then the namespace URI when truthy
(unshifted to the front). -/
def creationArgs (ns localName : String) (cls : List String) : List String :=
  let className := joinWith (" ") cls
  let args := [localName] ++ (if className ≠ "" then [className] else [])
  if isSvgNS ns then ns :: args else args

/-- Creation statement pushed on line 74. -/
def creationStmt (varName ns localName : String) (cls : List String) : String :=
  "const " ++ varName ++ " = dom." ++ creationFnName ns ++ "(" ++
    serializeArguments (creationArgs ns localName cls) ++ ");"

/-- Model of `el.getAttribute(name)`: value of the first attribute with
the given name. -/
def getAttribute (attrs : List (String × String)) (n : String) : Option String :=
  (attrs.find? (fun p => p.1 = n)).map (fun p => p.2)

/-- Name/value pairs for which line 80 emits a `setAttribute` statement:
every name from `getAttributeNames()` (source declaration order) except
`class`, paired with its `getAttribute` value. -/
def attrPairsToEmit (attrs : List (String × String)) : List (String × String) :=
  (attrs.map (fun p => p.1)).filterMap fun n =>
    if n = "class" then none
    else some (n, (getAttribute attrs n).getD "")

/-- Statement text of line 80: raw interpolation of the attribute name
and value between single quotes. -/
def setAttrStmt (varName attrName attrValue : String) : String :=
  varName ++ ".setAttribute(\x27" ++ attrName ++ "\x27, \x27" ++ attrValue ++ "\x27);"

/-- All `setAttribute` statements emitted for one element (lines 76-82). -/
def attrStmts (varName : String) (attrs : List (String × String)) : List String :=
  (attrPairsToEmit attrs).map (fun p => setAttrStmt varName p.1 p.2)

/-! ## The per-template compiler state

The JS `Map` `elemToVarNames` is keyed by node identity; distinct nodes
of the tree are distinct objects, so the embedding keys the table by the
node's path from the template root (the root itself is `[]`, child
number `i` of a node extends its path by `i`). -/

structure PState where
  vars : List (List Nat × String)
  lines : List String
  deriving DecidableEq

/-- Association lookup in insertion order, the `Map.prototype.get`. -/
def findVar (p : List Nat) : List (List Nat × String) → Option String
  | [] => none
  | e :: rest => if e.1 = p then some e.2 else findVar p rest

/-- Embedding of `makeOrGetVarName` (lines 48-52): reuse the bound name,
or bind the fresh name `'v' + elemToVarNames.size`.  JS number-to-string
conversion is decimal, i.e. `Nat.repr`. -/
def makeOrGetVarName (p : List Nat) (st : PState) : String × PState :=
  match findVar p st.vars with
  | some v => (v, st)
  | none =>
    let v := "v" ++ Nat.repr st.vars.length
    (v, { st with vars := st.vars ++ [(p, v)] })

/-- Appending one generated line, the `lines.push` of the script. -/
def pushLine (st : PState) (l : String) : PState :=
  { st with lines := st.lines ++ [l] }

/-- Appending several generated lines in order. -/
def pushLines (st : PState) (ls : List String) : PState :=
  { st with lines := st.lines ++ ls }

/-- First element of a `DNodeList`, the `nextSibling` access. -/
def DNodeList.headOpt : DNodeList → Option DNode
  | .nil => none
  | .cons n _ => some n

mutual
/-- Embedding of `process` (lines 57-135) on an element node; on text or
comment nodes (on which the script never calls `process`) it is the
identity on the state. -/
def process (path : List Nat) (st : PState) : DNode → PState
  | .element ns localName cls attrs children =>
    let r := makeOrGetVarName path st
    let st3 := pushLines r.2
      (creationStmt r.1 ns localName cls :: attrStmts r.1 attrs)
    let k := processKids path (tagNameOf ns localName) 0 none st3 [] children
    if k.2.length ≠ 0 then
      pushLine k.1 (r.1 ++ ".append(" ++ joinWith (",") k.2 ++ ");")
    else k.1
  | .text _ => st
  | .comment _ => st

/-- Embedding of the child loop of `process` (lines 86-130).  `i` is the
position of the next child among the parent's `childNodes`, `prev` the
previous sibling, `acc` the `childNodesToAppend` list built so far. -/
def processKids (path : List Nat) (parentTag : String) (i : Nat)
    (prev : Option DNode) (st : PState) (acc : List String) :
    DNodeList → PState × List String
  | .nil => (st, acc)
  | .cons c cs =>
    match c with
    | .comment _ => processKids path parentTag (i + 1) (some c) st acc cs
    | .text content =>
      let acc1 := acc ++ (textAppendEntry (some parentTag) prev cs.headOpt content).toList
      processKids path parentTag (i + 1) (some c) st acc1 cs
    | .element _ _ _ _ _ =>
      let st1 := process (path ++ [i]) st c
      let acc1 := acc ++ (findVar (path ++ [i]) st1.vars).toList
      processKids path parentTag (i + 1) (some c) st1 acc1 cs
end

/-- Template definition: the `template` element's `id` attribute and its
content child nodes. -/
structure Tmpl where
  id : String
  content : DNodeList
  deriving DecidableEq

/-- Only element nodes, as enumerated by `tmpEl.content.children`. -/
def elementChildren : DNodeList → List DNode
  | .nil => []
  | .cons c cs =>
    match c with
    | .element _ _ _ _ _ => c :: elementChildren cs
    | _ => elementChildren cs

/-- Loop of lines 140-143: process each top-level element and append its
variable to the fragment. -/
def processTop (fragVar : String) (i : Nat) (st : PState) : List DNode → PState
  | [] => st
  | el :: rest =>
    let st1 := process [i] st el
    let r := makeOrGetVarName [i] st1
    let st3 := pushLine r.2 (fragVar ++ ".append(" ++ r.1 ++ ");")
    processTop fragVar (i + 1) st3 rest

/-- Generated statement list of one template's function body
(lines 137-145). -/
def compileTemplateLines (t : Tmpl) : List String :=
  let st0 : PState := { vars := [], lines := [] }
  let r := makeOrGetVarName [] st0
  let st2 := pushLine r.2 ("const " ++ r.1 ++ " = dom.document().createDocumentFragment();")
  let st3 := processTop r.1 0 st2 (elementChildren t.content)
  (pushLine st3 ("return " ++ r.1 ++ ";")).lines

/-- Embedding of `createFunctionCode` (lines 31-35). -/
def createFunctionCode (functionName : String) (bodyLines : List String)
    (parameterNames : List String) : String :=
  let body := joinWith ("\n") (bodyLines.map (fun l => "  " ++ l))
  "function " ++ functionName ++ "(" ++ joinWith (", ") parameterNames ++
    ") \x7b\n" ++ body ++ "\n\x7d"

/-- Result record of `compileTemplate` (line 154); the `tmpEl` field of
the JS object, a reference back to the input node, is not needed by any
later computation on the record except through `componentName`. -/
structure Compiled where
  componentName : String
  functionName : String
  functionCode : String
  deriving DecidableEq

/-- Embedding of `compileTemplate` (lines 40-155). -/
def compileTemplate (t : Tmpl) : Compiled :=
  let lines := compileTemplateLines t
  let componentName := t.id
  let functionName := "create" ++ upperFirst componentName ++ "Component"
  let jsdocStr := "\n/**\n * @param \x7bDOM\x7d dom\n */"
  { componentName := componentName
    functionName := functionName
    functionCode := jsdocStr ++ "\n" ++ createFunctionCode functionName lines ["dom"] }

/-! ## The generated dispatcher -/

/-- Name of the generated dispatcher function (line 176). -/
def genericComponentFunctionName : String := "createComponent"

/-- Case line pushed for one compiled template (line 162). -/
def caseLine (t : Compiled) : String :=
  "  case \x27" ++ t.componentName ++ "\x27: return " ++ t.functionName ++ "(dom);"

/-- Throw statement of line 165: the one runtime error path of the
generated code, whose message names the offending identifier. -/
def throwLine : String :=
  "throw new Error(\x27unexpected component: \x27 + componentName)"

/-- Body lines of the dispatcher (lines 158-165). -/
def dispatchLines (pts : List Compiled) : List String :=
  ("switch (componentName) \x7b" :: pts.map caseLine) ++ ["\x7d", throwLine]

/-- Jsdoc block of lines 167-174. -/
def genericJsdoc (pts : List Compiled) : String :=
  let paramType := joinWith ("|") (pts.map (fun t => "\x27" ++ t.componentName ++ "\x27"))
  "\n/** @typedef \x7b" ++ paramType ++ "\x7d ComponentName */\n/**\n * @param \x7bDOM\x7d dom\n * @param \x7bComponentName\x7d componentName\n * @return \x7bDocumentFragment\x7d\n */"

/-- Embedding of `makeGenericCreateComponentFunctionCode` (lines 157-177). -/
def makeGenericCreateComponentFunctionCode (pts : List Compiled) : String :=
  genericJsdoc pts ++ "\nexport " ++
    createFunctionCode genericComponentFunctionName (dispatchLines pts)
      ["dom", "componentName"]

/-- Runtime meaning of the generated `switch` under JS semantics: the
first case whose label is exactly the supplied identifier returns the
call of its per-template function; with no matching case, control
reaches the `throw` statement, whose message appends the identifier. -/
def dispatchSem (pts : List Compiled) (name : String) : Except String String :=
  match pts.find? (fun t => t.componentName = name) with
  | some t => Except.ok t.functionName
  | none => Except.error ("unexpected component: " ++ name)

/-! ## Sorting and the output artifact

The script sorts the compiled templates with
`a.componentName.localeCompare(b.componentName)`.  `localeCompare` under
the default (root) collation compares ASCII alphanumeric strings first
case-insensitively (primary level) and breaks ties by case, lowercase
first (tertiary level); `locLe` models `localeCompare(a, b) <= 0` that
way.  `Array.prototype.sort` is required to be stable and to sort
according to the comparator; `sortBy` is a stable insertion sort. -/

/-- Primary collation weight of a character: case-folded code point. -/
def primaryWeight (c : Char) : Nat :=
  if 65 ≤ c.toNat && c.toNat ≤ 90 then c.toNat + 32 else c.toNat

/-- Tertiary collation weight: uppercase letters sort after lowercase. -/
def tertiaryWeight (c : Char) : Nat :=
  if 65 ≤ c.toNat && c.toNat ≤ 90 then 1 else 0

/-- Lexicographic comparison of weight lists. -/
def lexLe : List Nat → List Nat → Bool
  | [], _ => true
  | _ :: _, [] => false
  | a :: as, b :: bs => if a < b then true else if b < a then false else lexLe as bs

/-- Model of `a.localeCompare(b) <= 0` for ASCII strings. -/
def locLe (a b : String) : Bool :=
  let pa := a.data.map primaryWeight
  let pb := b.data.map primaryWeight
  if pa = pb then lexLe (a.data.map tertiaryWeight) (b.data.map tertiaryWeight)
  else lexLe pa pb

/-- Insertion into a sorted list, keeping existing equal elements first
(the stability guarantee of `Array.prototype.sort`). -/
def insertBy (le : α → α → Bool) (a : α) : List α → List α
  | [] => [a]
  | b :: t => if le b a then b :: insertBy le a t else a :: b :: t

/-- Stable insertion sort. -/
def sortBy (le : α → α → Bool) (l : List α) : List α :=
  l.foldl (fun acc a => insertBy le a acc) []

/-- Comparator of line 181. -/
def compiledLe (a b : Compiled) : Bool := locLe a.componentName b.componentName

/-- Compiled templates in emission order (lines 180-181). -/
def sortedTemplates (ts : List Tmpl) : List Compiled :=
  sortBy compiledLe (ts.map compileTemplate)

/-- Fixed output header (lines 182-189) as it stands after `trim` has
removed the template literal's leading newline and indentation. -/
def mainHeader : String :=
  "\x27use strict\x27;\n\n    // auto-generated by build/build-report-components.js\n\n    /** @typedef \x7bimport(\x27./dom.js\x27).DOM\x7d DOM */\n\n    /* eslint-disable max-len */\n\n    "

/-- Raw template literal of lines 182-194, before `.trim()`. -/
def rawMainCode (ts : List Tmpl) : String :=
  "\n    " ++ mainHeader ++
    joinWith ("\n") ((sortedTemplates ts).map (fun t => t.functionCode)) ++
    "\n\n    " ++ makeGenericCreateComponentFunctionCode (sortedTemplates ts) ++
    "\n  "

/-- Output artifact written to `report/renderer/components.js`
(lines 182-195). -/
def mainCode (ts : List Tmpl) : String := jsTrim (rawMainCode ts)

example :
    compileTemplate { id := "x", content := .nil } =
      { componentName := "x", functionName := "createXComponent",
        functionCode := "\n/**\n * @param \x7bDOM\x7d dom\n */\nfunction createXComponent(dom) \x7b\n  const v0 = dom.document().createDocumentFragment();\n  return v0;\n\x7d" } := by
  decide

example :
    (compileTemplateLines
      { id := "t",
        content := .cons (DNode.element htmlNS "div" ["a", "b"] [("class", "a b"), ("data-x", "1")]
          (.cons (DNode.text "hi") .nil)) .nil }) =
    ["const v0 = dom.document().createDocumentFragment();",
     "const v1 = dom.createElement(\x22div\x22,\x22a b\x22);",
     "v1.setAttribute(\x27data-x\x27, \x271\x27);",
     "v1.append(\x22hi\x22);",
     "v0.append(v1);",
     "return v0;"] := by decide

/-! ## A lexer for the emitted `setAttribute` statements

Claim C4 speaks about the statement of line 80 staying lexically valid
generated source.  `parseSetAttrStmt` recognizes exactly the intended
shape `ident.setAttribute('name', 'value');` where both literals are
plain (escape-free) JS single-quoted string literals, and recovers the
three components.  A statement that parses back to its components cannot
have had its quoting broken by the interpolated value. -/

/-- Apostrophe (single quote) character. -/
def quoteChar : Char := Char.ofNat 39

/-- Characters allowed in a JS identifier (ASCII fragment). -/
def isIdentChar (c : Char) : Bool :=
  c.isAlpha || c.isDigit || c = '_' || c = '$'

/-- Character that may stand unescaped inside a single-quoted JS string
literal: anything except the quote, the backslash and line terminators. -/
def isLitChar (c : Char) : Bool :=
  !(c = quoteChar || c = '\\' || c = '\n' || c = '\r')

/-- Predicate on a string: all characters may stand unescaped inside a
single-quoted literal. -/
def goodLit (s : String) : Bool := s.data.all isLitChar

/-- Strip an expected exact character sequence from the front. -/
def stripChars : List Char → List Char → Option (List Char)
  | [], l => some l
  | _ :: _, [] => none
  | p :: ps, c :: cs => if c = p then stripChars ps cs else none

/-- Scan a plain single-quoted literal body up to its closing quote;
fails on a backslash or line terminator (no escape sequences in the
recognized shape) and on a missing closing quote. -/
def scanLit : List Char → Option (List Char × List Char)
  | [] => none
  | c :: rest =>
    if c = quoteChar then some ([], rest)
    else if isLitChar c then
      match scanLit rest with
      | some (l, r) => some (c :: l, r)
      | none => none
    else none

/-- Parse a statement of the exact shape
`ident.setAttribute('name', 'value');` into its components. -/
def parseSetAttrStmt (s : String) : Option (String × String × String) :=
  let l := s.data
  let v := l.takeWhile isIdentChar
  if v.isEmpty then none
  else
    match stripChars (".setAttribute(\x27").data (l.drop v.length) with
    | none => none
    | some r1 =>
      match scanLit r1 with
      | none => none
      | some (n, r2) =>
        match stripChars (", \x27").data r2 with
        | none => none
        | some r3 =>
          match scanLit r3 with
          | none => none
          | some (w, r4) =>
            if r4 = (");").data then some (⟨v⟩, ⟨n⟩, ⟨w⟩) else none

example : parseSetAttrStmt (setAttrStmt "v1" "data-x" "a b") =
    some ("v1", "data-x", "a b") := by decide

example : parseSetAttrStmt (setAttrStmt "v1" "data-x" "a\x27b") = none := by decide

/-! ## The variable-binding table invariant -/

/-- Invariant of the `elemToVarNames` table during one template's
compilation: the bound names are, in insertion order, exactly
`v0, v1, ...`, and no node (path) is bound twice. -/
def GoodState (st : PState) : Prop :=
  st.vars.map (fun e => e.2) =
    (List.range st.vars.length).map (fun i => "v" ++ Nat.repr i) ∧
  (st.vars.map (fun e => e.1)).Nodup

/-! ## Decimal representation facts

The fresh variable name is `'v' + size` with JS decimal number-to-string
conversion, embedded as `Nat.repr`.  Distinctness of the generated names
needs injectivity of `Nat.repr`, proved here through a digit valuation. -/

/-- Numeric value of a decimal digit character. -/
def digitVal (c : Char) : Nat := c.toNat - 48

/-- Value of a most-significant-first decimal digit string. -/
def digitsVal (l : List Char) : Nat := l.foldl (fun a c => 10 * a + digitVal c) 0

theorem toDigitsCore_append (fuel n : Nat) (ds : List Char) :
    Nat.toDigitsCore 10 fuel n ds = Nat.toDigitsCore 10 fuel n [] ++ ds := by
  induction fuel generalizing n ds with
  | zero => simp [Nat.toDigitsCore]
  | succ f ih =>
    simp only [Nat.toDigitsCore]
    by_cases h : n / 10 = 0
    · simp [h]
    · simp only [if_neg h]
      rw [ih (n / 10) (Nat.digitChar (n % 10) :: ds),
        ih (n / 10) [Nat.digitChar (n % 10)]]
      simp

theorem toDigitsCore_fuel (n : Nat) : ∀ f₁ f₂ : Nat, n < f₁ → n < f₂ →
    Nat.toDigitsCore 10 f₁ n [] = Nat.toDigitsCore 10 f₂ n [] := by
  induction n using Nat.strong_induction_on with
  | _ n ih =>
    intro f₁ f₂ h₁ h₂
    match f₁, f₂ with
    | g₁ + 1, g₂ + 1 =>
      simp only [Nat.toDigitsCore]
      by_cases h : n / 10 = 0
      · simp [h]
      · simp only [if_neg h]
        rw [toDigitsCore_append g₁, toDigitsCore_append g₂]
        have hlt : n / 10 < n := by omega
        rw [ih (n / 10) hlt g₁ g₂ (by omega) (by omega)]

theorem digitVal_digitChar : ∀ m : Nat, m < 10 → digitVal (Nat.digitChar m) = m := by
  decide

theorem digitsVal_append (l : List Char) (c : Char) :
    digitsVal (l ++ [c]) = 10 * digitsVal l + digitVal c := by
  simp [digitsVal, List.foldl_append]

theorem digitsVal_toDigits (n : Nat) : digitsVal (Nat.toDigits 10 n) = n := by
  induction n using Nat.strong_induction_on with
  | _ n ih =>
    show digitsVal (Nat.toDigitsCore 10 (n + 1) n []) = n
    simp only [Nat.toDigitsCore]
    by_cases h : n / 10 = 0
    · have h10 : n < 10 := by omega
      have hm : n % 10 = n := by omega
      simp [h, digitsVal, hm, digitVal_digitChar n h10]
    · simp only [if_neg h]
      rw [toDigitsCore_append]
      have h1 : n / 10 < n := by omega
      rw [toDigitsCore_fuel (n / 10) n (n / 10 + 1) (by omega) (by omega)]
      rw [digitsVal_append]
      have hv : digitsVal (Nat.toDigitsCore 10 (n / 10 + 1) (n / 10) []) = n / 10 :=
        ih (n / 10) h1
      rw [hv]
      have hd : digitVal (Nat.digitChar (n % 10)) = n % 10 :=
        digitVal_digitChar _ (by omega)
      omega

theorem natRepr_inj {m n : Nat} (h : Nat.repr m = Nat.repr n) : m = n := by
  have hm : Nat.toDigits 10 m = Nat.toDigits 10 n := by
    have hd := congrArg String.data h
    simpa [Nat.repr, List.asString] using hd
  have hv := congrArg digitsVal hm
  simpa [digitsVal_toDigits] using hv

theorem vname_inj {i j : Nat} (h : "v" ++ Nat.repr i = "v" ++ Nat.repr j) :
    i = j := by
  have hd := congrArg String.data h
  simp only [String.data_append] at hd
  have : (Nat.repr i).data = (Nat.repr j).data := by
    simpa using hd
  exact natRepr_inj (String.ext this)

/-! ## Claim C9 -/

/-- C9: a text child with empty text content, or one whose
`parentElement` is null, is skipped unconditionally — it contributes no
append-list entry even when flanked on both sides by element siblings
(such as spans); these guards run before the whitespace-significance
heuristic. -/
theorem C9_empty_or_orphan_text_skipped (p : Option String)
    (prev next : Option DNode) (content : String) (path : List Nat)
    (parentTag : String) (i : Nat) (st : PState) (acc : List String)
    (cs : DNodeList) :
    textAppendEntry p prev next "" = none ∧
    textAppendEntry none prev next content = none ∧
    processKids path parentTag i prev st acc (.cons (DNode.text "") cs) =
      processKids path parentTag (i + 1) (some (DNode.text "")) st acc cs := by
  refine ⟨?_, rfl, ?_⟩
  · cases p <;> simp [textAppendEntry]
  · simp [processKids, textAppendEntry]

/-! ## Claim C1 -/

/-- C1 as stated is false: the claim predicts that a text node flanked by
two span element siblings is preserved whenever it lacks non-whitespace
content, but the compiler drops the node with empty text content even in
that flanked position (the `!childNode.textContent` guard of line 91
fires first). -/
theorem C1_counterexample :
    ¬ ((textAppendEntry (some ("DIV")) (some spanEl) (some spanEl) "").isSome ↔
      (jsTrim "" ≠ "" ∨ flankedBySpan (some spanEl) (some spanEl) = true)) := by
  decide

/-- C1 (amended): a text node child is preserved (contributes an
append-list entry) exactly when it has non-whitespace content, or it is
non-empty and has element nodes as both immediate siblings of which at
least one is a span; in particular an all-whitespace non-empty text node
between two spans is kept and the same node between two divs is
dropped. -/
theorem C1_whitespace_heuristic (ptag : String) (prev next : Option DNode)
    (content : String) :
    (textAppendEntry (some ptag) prev next content).isSome ↔
      (jsTrim content ≠ "" ∨ (content ≠ "" ∧ flankedBySpan prev next = true)) := by
  by_cases hc : content = ""
  · subst hc
    simp [textAppendEntry, jsTrim]
  · simp only [textAppendEntry, if_neg hc]
    by_cases ha : flankedBySpan prev next
    · simp [ha, hc]
    · by_cases ht : jsTrim content = ""
      · simp [ha, ht, hc]
      · simp [ha, ht, hc]

/-! ## Claim C5 -/

/-- C5 fails as stated: a template whose identifier is missing (the DOM
reflects an absent `id` attribute as the empty string) is not rejected;
`compileTemplate` silently derives the function name
`createComponent` — the very name of the generated dispatcher — instead
of throwing. -/
theorem C5_counterexample :
    (compileTemplate { id := "", content := .nil }).componentName = "" ∧
    (compileTemplate { id := "", content := .nil }).functionName =
      genericComponentFunctionName := by decide

/-- C5 (amended): a template lacking an identifier is silently accepted
into function-name generation: its component name is the empty string
and its derived function name is exactly the dispatcher's function name
`createComponent`; no error is raised. -/
theorem C5_missing_identifier (t : Tmpl) (h : t.id = "") :
    (compileTemplate t).componentName = "" ∧
    (compileTemplate t).functionName = genericComponentFunctionName := by
  refine ⟨h, ?_⟩
  show "create" ++ upperFirst t.id ++ "Component" = genericComponentFunctionName
  rw [h]
  rfl

/-- C5 witness: the amended statement evaluated on a concrete id-less
template. -/
theorem C5_witness :
    (compileTemplate { id := "", content := .cons divEl .nil }).componentName = "" ∧
    (compileTemplate { id := "", content := .cons divEl .nil }).functionName =
      genericComponentFunctionName :=
  C5_missing_identifier { id := "", content := .cons divEl .nil } rfl

/-! ## Claim C6 -/

/-- C6 fails as stated: an input with two templates sharing the
identifier `a` is not rejected; both are compiled, they derive the same
function name, and the generated dispatcher contains the same case line
twice (the second being unreachable behind the first). -/
theorem C6_counterexample :
    (compileTemplate { id := "a", content := .nil }).functionName =
      (compileTemplate { id := "a", content := .cons divEl .nil }).functionName ∧
    (dispatchLines [compileTemplate { id := "a", content := .nil },
        compileTemplate { id := "a", content := .cons divEl .nil }]).count
      (caseLine (compileTemplate { id := "a", content := .nil })) = 2 := by
  decide

/-- C6 (amended): identifier uniqueness is not checked: every template
contributes exactly one dispatcher case line, in compilation order and
without deduplication, and two templates with equal identifiers derive
equal function names (so their generated functions collide instead of
the input being rejected). -/
theorem C6_duplicate_identifiers (ts : List Tmpl) (t1 t2 : Tmpl)
    (h : t1.id = t2.id) :
    dispatchLines (ts.map compileTemplate) =
      ("switch (componentName) \x7b" ::
        ts.map (fun t => caseLine (compileTemplate t))) ++ ["\x7d", throwLine] ∧
    (compileTemplate t1).functionName = (compileTemplate t2).functionName := by
  constructor
  · simp [dispatchLines, List.map_map]
  · show "create" ++ upperFirst t1.id ++ "Component" =
      "create" ++ upperFirst t2.id ++ "Component"
    rw [h]

/-- C6 witness: the amended statement evaluated on two concrete
templates with the same identifier. -/
theorem C6_witness :
    (compileTemplate { id := "a", content := .cons divEl .nil }).functionName =
      (compileTemplate { id := "a", content := .cons spanEl .nil }).functionName :=
  (C6_duplicate_identifiers []
    { id := "a", content := .cons divEl .nil }
    { id := "a", content := .cons spanEl .nil } rfl).2

/-! ## Claim C3 -/

/-- C3 fails as stated: for an element with no classes the creation
arguments do not include the empty class string — the truthiness test of
line 65 skips the push, so the arguments are just the tag name. -/
theorem C3_counterexample :
    ¬ ("" ∈ creationArgs htmlNS "div" []) ∧
    creationArgs htmlNS "div" [] = ["div"] := by decide

/-- C3 (amended): the creation arguments include the space-joined class
string exactly when it is non-empty; when the element has no classes the
arguments are only the tag name (preceded by the namespace for SVG), and
no separate `setAttribute` statement for `class` is ever emitted. -/
theorem C3_class_folding (ns localName : String) (cls : List String)
    (attrs : List (String × String)) :
    (joinWith (" ") cls ≠ "" →
      creationArgs ns localName cls =
        (if isSvgNS ns then [ns] else []) ++ [localName, joinWith (" ") cls]) ∧
    (joinWith (" ") cls = "" →
      creationArgs ns localName cls =
        (if isSvgNS ns then [ns] else []) ++ [localName]) ∧
    (∀ p ∈ attrPairsToEmit attrs, p.1 ≠ "class") := by
  refine ⟨?_, ?_, ?_⟩
  · intro h
    simp only [creationArgs, if_pos h]
    cases hs : isSvgNS ns <;> simp
  · intro h
    simp only [creationArgs, h]
    cases hs : isSvgNS ns <;> simp
  · intro p hp
    simp only [attrPairsToEmit, List.mem_filterMap] at hp
    obtain ⟨n, _, he⟩ := hp
    by_cases hn : n = "class"
    · simp [hn] at he
    · simp only [if_neg hn] at he
      cases he
      exact hn

/-- C3 witness: the amended statement evaluated on a concrete element
with classes `a` and `b`. -/
theorem C3_witness : creationArgs htmlNS "div" ["a", "b"] = ["div", "a b"] := by
  have h := (C3_class_folding htmlNS "div" ["a", "b"] []).1 (by decide)
  rw [h]
  decide

/-! ## Claim C2 -/

theorem collapseAux_ws_run (w s : List Char)
    (hw : ∀ c ∈ w, isJsWs c = true) :
    collapseAux true (w ++ s) = collapseAux true s := by
  induction w with
  | nil => rfl
  | cons c t ih =>
    have hc := hw c (by simp)
    simp only [List.cons_append, collapseAux, hc, if_true]
    exact ih (fun d hd => hw d (by simp [hd]))

theorem collapseAux_true_of_head (s : List Char)
    (hs : ∀ c ∈ s.head?, isJsWs c = false) :
    collapseAux true s = collapseAux false s := by
  cases s with
  | nil => rfl
  | cons c t =>
    have hc := hs c (by simp)
    simp [collapseAux, hc]

/-- C2: every preserved text node is emitted as the `JSON.stringify`
rendering of its content, with each maximal run of consecutive
whitespace characters replaced by a single space unless the parent
element is `pre` or `style`, in which case the content is kept
byte-for-byte.  The second and third conjuncts characterize the
collapsing function: a leading maximal whitespace run becomes one space,
and non-whitespace characters pass through unchanged. -/
theorem C2_text_rendering :
    (∀ ptag prev next content e,
      textAppendEntry (some ptag) prev next content = some e →
      e = jsonStringify
        (if ptag = "PRE" ∨ ptag = "STYLE" then content else collapseWs content)) ∧
    (∀ w s, w ≠ [] → (∀ c ∈ w, isJsWs c = true) →
      (∀ c ∈ s.head?, isJsWs c = false) →
      collapseWsL (w ++ s) = ' ' :: collapseWsL s) ∧
    (∀ c s, isJsWs c = false → collapseWsL (c :: s) = c :: collapseWsL s) := by
  refine ⟨?_, ?_, ?_⟩
  · intro ptag prev next content e h
    simp only [textAppendEntry] at h
    by_cases hc : content = ""
    · simp [hc] at h
    · simp only [if_neg hc] at h
      by_cases hcond :
          (!flankedBySpan prev next && jsTrim content = "") = true
      · simp [hcond] at h
      · simp only [Bool.not_eq_true] at hcond
        rw [if_neg (by simp [hcond])] at h
        injection h with h'
        subst h'
        by_cases hp : ptag = "PRE" <;> by_cases hs : ptag = "STYLE" <;>
          simp [hp, hs]
  · intro w s hne hw hs
    cases w with
    | nil => exact absurd rfl hne
    | cons c t =>
      have hc := hw c (by simp)
      show collapseAux false (c :: t ++ s) = ' ' :: collapseWsL s
      have h1 : collapseAux false (c :: t ++ s) = ' ' :: collapseAux true (t ++ s) := by
        simp [collapseAux, hc]
      rw [h1, collapseAux_ws_run t s (fun d hd => hw d (by simp [hd])),
        collapseAux_true_of_head s hs]
      rfl
  · intro c s hc
    simp [collapseWsL, collapseAux, hc]

/-- C2 witness: the first conjunct evaluated on a concrete text node
with a double space under a div parent and, through the hypothesis, on
the compiler's own decision for it. -/
theorem C2_witness :
    ("\x22a b\x22" : String) =
      jsonStringify (if ("DIV" : String) = "PRE" ∨ ("DIV" : String) = "STYLE"
        then "a  b" else collapseWs "a  b") :=
  C2_text_rendering.1 "DIV" none none "a  b" "\x22a b\x22" (by decide)

/-! ## Claim C4 helper lemmas -/

theorem takeWhile_append_all {p : Char → Bool} (l r : List Char)
    (hl : ∀ c ∈ l, p c = true) (hr : ∀ c ∈ r.head?, p c = false) :
    (l ++ r).takeWhile p = l := by
  induction l with
  | nil =>
    cases r with
    | nil => rfl
    | cons c t => simp [List.takeWhile_cons, hr c (by simp)]
  | cons c t ih =>
    simp [List.takeWhile_cons, hl c (by simp),
      ih (fun d hd => hl d (List.mem_cons_of_mem c hd))]

theorem stripChars_self_append (pat rest : List Char) :
    stripChars pat (pat ++ rest) = some rest := by
  induction pat with
  | nil => rfl
  | cons c t ih => simp [stripChars, ih]

theorem scanLit_append (l rest : List Char)
    (h : ∀ c ∈ l, isLitChar c = true) :
    scanLit (l ++ (quoteChar :: rest)) = some (l, rest) := by
  induction l with
  | nil => simp [scanLit]
  | cons c t ih =>
    have hc := h c (by simp)
    have hq : ¬(c = quoteChar) := by
      intro e
      rw [e] at hc
      simp [isLitChar] at hc
    simp [scanLit, hq, hc, ih (fun d hd => h d (by simp [hd]))]

theorem parse_steps (vd nd wd : List Char)
    (hv : vd ≠ []) (hvi : ∀ c ∈ vd, isIdentChar c = true)
    (hn : ∀ c ∈ nd, isLitChar c = true) (hw : ∀ c ∈ wd, isLitChar c = true) :
    parseSetAttrStmt ⟨vd ++ ((".setAttribute(\x27" : String).data ++
        (nd ++ (("\x27, \x27" : String).data ++
          (wd ++ ("\x27);" : String).data))))⟩ =
      some (⟨vd⟩, ⟨nd⟩, ⟨wd⟩) := by
  have hp1 : (".setAttribute(\x27" : String).data =
      '.' :: ("setAttribute(\x27" : String).data := by decide
  have hp2 : ("\x27, \x27" : String).data =
      quoteChar :: (", \x27" : String).data := by decide
  have hp3 : ("\x27);" : String).data = quoteChar :: (");" : String).data := by
    decide
  have htake : (vd ++ ((".setAttribute(\x27" : String).data ++
      (nd ++ (("\x27, \x27" : String).data ++
        (wd ++ ("\x27);" : String).data))))).takeWhile isIdentChar = vd := by
    apply takeWhile_append_all _ _ hvi
    rw [hp1]
    intro c hc
    simp only [List.cons_append, List.head?_cons, Option.mem_def,
      Option.some.injEq] at hc
    rw [← hc]
    decide
  have hne : vd.isEmpty = false := by
    cases vd with
    | nil => exact absurd rfl hv
    | cons c t => rfl
  have hscan1 : scanLit (nd ++ (("\x27, \x27" : String).data ++
      (wd ++ ("\x27);" : String).data))) =
      some (nd, (", \x27" : String).data ++ (wd ++ ("\x27);" : String).data)) := by
    rw [hp2, List.cons_append]
    exact scanLit_append nd _ hn
  have hscan2 : scanLit (wd ++ ("\x27);" : String).data) =
      some (wd, (");" : String).data) := by
    rw [hp3]
    exact scanLit_append wd _ hw
  unfold parseSetAttrStmt
  simp only [htake, hne, Bool.false_eq_true, if_false, List.drop_left,
    stripChars_self_append, hscan1, hscan2]
  simp

theorem attrPairsToEmit_eq_filter (attrs : List (String × String))
    (hnodup : (attrs.map (fun p => p.1)).Nodup) :
    attrPairsToEmit attrs = attrs.filter (fun p => p.1 ≠ "class") := by
  induction attrs with
  | nil => rfl
  | cons a rest ih =>
    simp only [List.map_cons, List.nodup_cons] at hnodup
    obtain ⟨hmem, hrest⟩ := hnodup
    have hhead : getAttribute (a :: rest) a.1 = some a.2 := by
      simp [getAttribute, List.find?_cons_of_pos]
    have htail : ∀ m ∈ rest.map (fun p => p.1),
        (if m = "class" then none
          else some (m, (getAttribute (a :: rest) m).getD "")) =
        (if m = "class" then none
          else some (m, (getAttribute rest m).getD "")) := by
      intro m hm
      have hne : ¬(a.1 = m) := fun e => hmem (e ▸ hm)
      have hg : getAttribute (a :: rest) m = getAttribute rest m := by
        simp [getAttribute, List.find?_cons_of_neg, hne]
      rw [hg]
    have hrw : attrPairsToEmit (a :: rest) =
        (if a.1 = "class" then none
          else some (a.1, (getAttribute (a :: rest) a.1).getD "")).toList ++
          attrPairsToEmit rest := by
      simp only [attrPairsToEmit, List.map_cons, List.filterMap_cons]
      rw [List.filterMap_congr htail]
      by_cases hc : a.1 = "class"
      · simp [hc]
      · simp [hc]
    rw [hrw, ih hrest]
    by_cases hc : a.1 = "class"
    · simp [hc, List.filter_cons]
    · simp [hc, hhead, List.filter_cons]

theorem parseSetAttrStmt_roundtrip (v n w : String)
    (hv : v.data ≠ []) (hvi : ∀ c ∈ v.data, isIdentChar c = true)
    (hn : goodLit n = true) (hw : goodLit w = true) :
    parseSetAttrStmt (setAttrStmt v n w) = some (v, n, w) := by
  have hs : setAttrStmt v n w =
      ⟨v.data ++ ((".setAttribute(\x27" : String).data ++
        (n.data ++ (("\x27, \x27" : String).data ++
          (w.data ++ ("\x27);" : String).data))))⟩ := by
    apply String.ext
    simp [setAttrStmt]
  rw [hs]
  have hn' : ∀ c ∈ n.data, isLitChar c = true := by
    intro c hc
    exact List.all_eq_true.1 hn c hc
  have hw' : ∀ c ∈ w.data, isLitChar c = true := by
    intro c hc
    exact List.all_eq_true.1 hw c hc
  have h1 := parse_steps v.data n.data w.data hv hvi hn' hw'
  simpa using h1

/-! ## Claim C4 -/

/-- C4 fails in its lexical-validity part: the statement of line 80
interpolates the attribute value raw between single quotes, so a value
containing a single quote breaks the statement — the emitted text for
value `a'b` does not parse back as a well-formed set-attribute
statement. -/
theorem C4_counterexample :
    parseSetAttrStmt (setAttrStmt "v1" "data-x" "a\x27b") = none ∧
    setAttrStmt "v1" "data-x" "a\x27b" =
      "v1.setAttribute(\x27data-x\x27, \x27a\x27b\x27);" := by decide

/-- C4 (amended): for every attribute except `class` exactly one
set-attribute statement is emitted, in source declaration order, with
the literal name and value interpolated raw between single quotes; the
statement is lexically valid (it parses back to exactly its components)
whenever the name and the value contain no single quote, backslash or
line terminator — but not for arbitrary values. -/
theorem C4_attr_statements (v : String) (attrs : List (String × String))
    (n w : String) (hnodup : (attrs.map (fun p => p.1)).Nodup)
    (hv : v.data ≠ []) (hvi : ∀ c ∈ v.data, isIdentChar c = true)
    (hn : goodLit n = true) (hw : goodLit w = true) :
    attrPairsToEmit attrs = attrs.filter (fun p => p.1 ≠ "class") ∧
    attrStmts v attrs = (attrs.filter (fun p => p.1 ≠ "class")).map
      (fun p => setAttrStmt v p.1 p.2) ∧
    parseSetAttrStmt (setAttrStmt v n w) = some (v, n, w) :=
  ⟨attrPairsToEmit_eq_filter attrs hnodup,
   by rw [attrStmts, attrPairsToEmit_eq_filter attrs hnodup],
   parseSetAttrStmt_roundtrip v n w hv hvi hn hw⟩

/-- C4 witness: the amended statement evaluated on a concrete attribute
list and a concrete benign name/value pair. -/
theorem C4_witness :
    attrPairsToEmit [("class", "x"), ("data-a", "1")] =
      ([("class", "x"), ("data-a", "1")] : List (String × String)).filter
        (fun p => p.1 ≠ "class") ∧
    parseSetAttrStmt (setAttrStmt "v1" "data-a" "1") =
      some ("v1", "data-a", "1") := by
  have h := C4_attr_statements "v1" [("class", "x"), ("data-a", "1")]
    "data-a" "1" (by decide) (by decide) (by decide) (by decide) (by decide)
  exact ⟨h.1, h.2.2⟩

/-! ## Claim C7 -/

/-- C7: with pairwise-distinct identifiers, dispatching on a compiled
template's identifier succeeds with exactly that template's function
(and its case line is present in the generated switch), dispatching on
an unknown identifier fails with an error message that appends the
identifier, and an error is only ever produced for an unknown
identifier — the unknown-identifier throw is the sole runtime error
path of the generated dispatcher. -/
theorem C7_dispatch (pts : List Compiled) (t : Compiled) (name : String)
    (hnodup : (pts.map (fun u => u.componentName)).Nodup) :
    (t ∈ pts → dispatchSem pts t.componentName = Except.ok t.functionName ∧
      caseLine t ∈ dispatchLines pts) ∧
    (name ∉ pts.map (fun u => u.componentName) →
      dispatchSem pts name = Except.error ("unexpected component: " ++ name)) ∧
    (∀ msg, dispatchSem pts name = Except.error msg →
      name ∉ pts.map (fun u => u.componentName) ∧
      msg = "unexpected component: " ++ name) := by
  refine ⟨?_, ?_, ?_⟩
  · intro ht
    constructor
    · unfold dispatchSem
      cases hf : pts.find? (fun u => u.componentName = t.componentName) with
      | none =>
        rw [List.find?_eq_none] at hf
        exact absurd (by simp) (hf t ht)
      | some u =>
        have hu : u.componentName = t.componentName := by
          have := List.find?_some hf
          simpa using this
        have hmem : u ∈ pts := List.mem_of_find?_eq_some hf
        have : u = t := List.inj_on_of_nodup_map hnodup hmem ht hu
        rw [this]
    · exact List.mem_append_left _
        (List.mem_cons_of_mem _ (List.mem_map_of_mem caseLine ht))
  · intro hname
    unfold dispatchSem
    cases hf : pts.find? (fun u => u.componentName = name) with
    | none => rfl
    | some u =>
      have hu : u.componentName = name := by
        have := List.find?_some hf
        simpa using this
      have hmem : u ∈ pts := List.mem_of_find?_eq_some hf
      exact absurd (hu ▸ List.mem_map_of_mem (fun x => x.componentName) hmem) hname
  · intro msg h
    unfold dispatchSem at h
    cases hf : pts.find? (fun u => u.componentName = name) with
    | some u => rw [hf] at h; exact absurd h (by simp)
    | none =>
      rw [hf] at h
      refine ⟨?_, by injection h with h'; exact h'.symm⟩
      rw [List.find?_eq_none] at hf
      intro hmem
      obtain ⟨u, hu, he⟩ := List.mem_map.1 hmem
      exact hf u hu (by simp [he])

/-- C7 witness: the theorem evaluated on two concrete compiled
templates, one known and one unknown identifier. -/
theorem C7_witness :
    dispatchSem [compileTemplate { id := "a", content := .nil },
        compileTemplate { id := "b", content := .nil }]
      (compileTemplate { id := "a", content := .nil }).componentName =
      Except.ok (compileTemplate { id := "a", content := .nil }).functionName ∧
    dispatchSem [compileTemplate { id := "a", content := .nil },
        compileTemplate { id := "b", content := .nil }] "zz" =
      Except.error ("unexpected component: " ++ "zz") :=
  ⟨((C7_dispatch
      [compileTemplate { id := "a", content := .nil },
        compileTemplate { id := "b", content := .nil }]
      (compileTemplate { id := "a", content := .nil }) "zz"
      (by decide)).1 (by decide)).1,
   (C7_dispatch
      [compileTemplate { id := "a", content := .nil },
        compileTemplate { id := "b", content := .nil }]
      (compileTemplate { id := "a", content := .nil }) "zz"
      (by decide)).2.1 (by decide)⟩

/-! ## Claim C10 helper lemmas -/

theorem findVar_eq_none_iff (p : List Nat) (l : List (List Nat × String)) :
    findVar p l = none ↔ p ∉ l.map (fun e => e.1) := by
  induction l with
  | nil => simp [findVar]
  | cons a t ih =>
    simp only [findVar, List.map_cons, List.mem_cons]
    by_cases h : a.1 = p
    · simp [h]
    · simp only [if_neg h, ih]
      have h2 : ¬(p = a.1) := fun e => h e.symm
      simp [h2]

theorem findVar_mem (p : List Nat) (v : String) (l : List (List Nat × String))
    (hmem : (p, v) ∈ l) (hnodup : (l.map (fun e => e.1)).Nodup) :
    findVar p l = some v := by
  induction l with
  | nil => cases hmem
  | cons a t ih =>
    simp only [List.map_cons, List.nodup_cons] at hnodup
    rcases List.mem_cons.1 hmem with h | h
    · rw [← h]
      simp [findVar]
    · have hne : ¬(a.1 = p) := by
        intro e
        exact hnodup.1 (e ▸ List.mem_map_of_mem (fun x => x.1) h)
      simp [findVar, hne, ih h hnodup.2]

theorem makeOrGetVarName_lines (p : List Nat) (st : PState) :
    (makeOrGetVarName p st).2.lines = st.lines := by
  unfold makeOrGetVarName
  cases findVar p st.vars <;> rfl

theorem makeOrGetVarName_good (p : List Nat) (st : PState)
    (h : GoodState st) : GoodState (makeOrGetVarName p st).2 := by
  unfold makeOrGetVarName
  cases hf : findVar p st.vars with
  | some v => exact h
  | none =>
    obtain ⟨h1, h2⟩ := h
    constructor
    · simp [List.map_append, List.range_succ, h1]
    · simp only [List.map_append, List.map_cons, List.map_nil]
      rw [List.nodup_append]
      refine ⟨h2, by simp, ?_⟩
      simp only [List.disjoint_singleton]
      exact (findVar_eq_none_iff p st.vars).1 hf

theorem pushLine_good (st : PState) (l : String) (h : GoodState st) :
    GoodState (pushLine st l) := h

theorem pushLines_good (st : PState) (ls : List String) (h : GoodState st) :
    GoodState (pushLines st ls) := h

theorem pushLine_lines (st : PState) (l : String) :
    (pushLine st l).lines = st.lines ++ [l] := rfl

theorem pushLines_lines (st : PState) (ls : List String) :
    (pushLines st ls).lines = st.lines ++ ls := rfl

theorem exists_ext_append {α : Type} {l2 l1 a : List α} (h : l2 = l1 ++ a)
    (b : List α) : ∃ ex, l2 ++ b = l1 ++ ex :=
  ⟨a ++ b, by rw [h, List.append_assoc]⟩

theorem exists_ext_of_eq {α : Type} {l2 l1 a : List α} (h : l2 = l1 ++ a) :
    ∃ ex, l2 = l1 ++ ex :=
  ⟨a, h⟩

mutual
theorem process_invariant (path : List Nat) (st : PState) (n : DNode) :
    (GoodState st → GoodState (process path st n)) ∧
    ∃ ex, (process path st n).lines = st.lines ++ ex := by
  cases n with
  | text c => exact ⟨fun h => h, ⟨[], by simp [process]⟩⟩
  | comment c => exact ⟨fun h => h, ⟨[], by simp [process]⟩⟩
  | element ns localName cls attrs children =>
    have hk := processKids_invariant path (tagNameOf ns localName) 0 none
      (pushLines (makeOrGetVarName path st).2
        (creationStmt (makeOrGetVarName path st).1 ns localName cls ::
          attrStmts (makeOrGetVarName path st).1 attrs)) [] children
    constructor
    · intro h
      have hg4 := hk.1 (pushLines_good _ _ (makeOrGetVarName_good path st h))
      simp only [process]
      split
      · exact hg4
      · exact hg4
    · obtain ⟨ex, hex⟩ := hk.2
      simp only [process]
      rw [pushLines_lines, makeOrGetVarName_lines, List.append_assoc] at hex
      split
      · rw [pushLine_lines]
        exact exists_ext_append hex _
      · exact exists_ext_of_eq hex

theorem processKids_invariant (path : List Nat) (parentTag : String) (i : Nat)
    (prev : Option DNode) (st : PState) (acc : List String) (l : DNodeList) :
    (GoodState st →
      GoodState (processKids path parentTag i prev st acc l).1) ∧
    ∃ ex, (processKids path parentTag i prev st acc l).1.lines =
      st.lines ++ ex := by
  cases l with
  | nil => exact ⟨fun h => h, ⟨[], by simp [processKids]⟩⟩
  | cons c cs =>
    cases c with
    | comment s =>
      have := processKids_invariant path parentTag (i + 1)
        (some (DNode.comment s)) st acc cs
      simpa [processKids] using this
    | text s =>
      have := processKids_invariant path parentTag (i + 1)
        (some (DNode.text s)) st
        (acc ++ (textAppendEntry (some parentTag) prev cs.headOpt s).toList) cs
      simpa [processKids] using this
    | element ns localName cls attrs children =>
      have hp := process_invariant (path ++ [i]) st
        (DNode.element ns localName cls attrs children)
      have hr := processKids_invariant path parentTag (i + 1)
        (some (DNode.element ns localName cls attrs children))
        (process (path ++ [i]) st (DNode.element ns localName cls attrs children))
        (acc ++ (findVar (path ++ [i])
          (process (path ++ [i]) st
            (DNode.element ns localName cls attrs children)).vars).toList) cs
      constructor
      · intro h
        have := hr.1 (hp.1 h)
        simpa [processKids] using this
      · obtain ⟨ex1, hex1⟩ := hp.2
        obtain ⟨ex2, hex2⟩ := hr.2
        refine ⟨ex1 ++ ex2, ?_⟩
        simp only [processKids]
        rw [hex2, hex1, List.append_assoc]
end

theorem processTop_lines (fv : String) (i : Nat) (st : PState)
    (l : List DNode) :
    ∃ ex, (processTop fv i st l).lines = st.lines ++ ex := by
  induction l generalizing i st with
  | nil => exact ⟨[], by simp [processTop]⟩
  | cons el rest ih =>
    obtain ⟨ex1, hex1⟩ := (process_invariant [i] st el).2
    obtain ⟨ex2, hex2⟩ := ih (i + 1)
      (pushLine (makeOrGetVarName [i] (process [i] st el)).2
        (fv ++ ".append(" ++ (makeOrGetVarName [i] (process [i] st el)).1 ++ ");"))
    simp only [processTop]
    rw [hex2, pushLine_lines, makeOrGetVarName_lines, hex1,
      List.append_assoc, List.append_assoc]
    exact ⟨_, rfl⟩

theorem goodState_distinct (st : PState) (h : GoodState st)
    (p₁ p₂ : List Nat) (v₁ v₂ : String) (h₁ : (p₁, v₁) ∈ st.vars)
    (h₂ : (p₂, v₂) ∈ st.vars) (hne : p₁ ≠ p₂) : v₁ ≠ v₂ := by
  obtain ⟨hmap, _⟩ := h
  have hsnodup : (st.vars.map (fun e => e.2)).Nodup := by
    rw [hmap]
    exact List.Nodup.map (fun a b hab => vname_inj hab)
      (List.nodup_range st.vars.length)
  intro hv
  have : (p₁, v₁) = (p₂, v₂) :=
    List.inj_on_of_nodup_map hsnodup h₁ h₂ (by simpa using hv)
  exact hne (congrArg Prod.fst this)

/-- C10: during one template's compilation the node-to-variable-name
table is well-behaved — a node not yet bound receives the fresh name
`v` followed by the table's current size, a bound node's later
`makeOrGetVarName` call returns its existing name and leaves the table
unchanged, distinct nodes are always bound to distinct names, the
well-formedness of the table is preserved by the whole recursive
`process` walk, and the fragment variable bound first to the template
root is always `v0` (the first generated statement binds `v0` to the
fresh document fragment). -/
theorem C10_binding_table (st : PState) (p p₁ p₂ : List Nat)
    (v₁ v₂ : String) (path : List Nat) (nd : DNode) (t : Tmpl)
    (hgood : GoodState st) :
    (findVar p st.vars = none →
      (makeOrGetVarName p st).1 = "v" ++ Nat.repr st.vars.length) ∧
    ((p₁, v₁) ∈ st.vars → makeOrGetVarName p₁ st = (v₁, st)) ∧
    ((p₁, v₁) ∈ st.vars → (p₂, v₂) ∈ st.vars → p₁ ≠ p₂ → v₁ ≠ v₂) ∧
    GoodState (process path st nd) ∧
    (compileTemplateLines t).head? =
      some ("const v0 = dom.document().createDocumentFragment();") := by
  refine ⟨?_, ?_, ?_, ?_, ?_⟩
  · intro hf
    unfold makeOrGetVarName
    rw [hf]
  · intro hmem
    unfold makeOrGetVarName
    rw [findVar_mem p₁ v₁ st.vars hmem hgood.2]
  · exact fun h₁ h₂ hne => goodState_distinct st hgood p₁ p₂ v₁ v₂ h₁ h₂ hne
  · exact (process_invariant path st nd).1 hgood
  · have hr : makeOrGetVarName [] { vars := [], lines := [] } =
        ("v0", { vars := [([], "v0")], lines := [] }) := by decide
    simp only [compileTemplateLines]
    rw [hr]
    obtain ⟨ex, hex⟩ := processTop_lines "v0" 0
      (pushLine { vars := [([], "v0")], lines := [] }
        ("const " ++ "v0" ++ " = dom.document().createDocumentFragment();"))
      (elementChildren t.content)
    rw [pushLine_lines, hex, pushLine_lines]
    rfl

/-- C10 witness: the stable-lookup and root-variable conjuncts evaluated
on a concrete one-entry table and a concrete template. -/
theorem C10_witness :
    makeOrGetVarName [] { vars := [([], "v0")], lines := [] } =
      ("v0", { vars := [([], "v0")], lines := [] }) ∧
    (compileTemplateLines { id := "w", content := .nil }).head? =
      some ("const v0 = dom.document().createDocumentFragment();") := by
  have h := C10_binding_table { vars := [([], "v0")], lines := [] }
    [] [] [0] "v0" "v1" [] (DNode.text "") { id := "w", content := .nil }
    ⟨by decide, by decide⟩
  exact ⟨h.2.1 (by decide), h.2.2.2.2⟩

/-! ## Claim C8 helper lemmas: the collation order -/

theorem lexLe_total (a b : List Nat) : lexLe a b = true ∨ lexLe b a = true := by
  induction a generalizing b with
  | nil => exact Or.inl rfl
  | cons x xs ih =>
    cases b with
    | nil => exact Or.inr rfl
    | cons y ys =>
      by_cases h1 : x < y
      · exact Or.inl (by simp [lexLe, h1])
      · by_cases h2 : y < x
        · exact Or.inr (by simp [lexLe, h2])
        · rcases ih ys with h | h
          · exact Or.inl (by simp [lexLe, h1, h2, h])
          · exact Or.inr (by simp [lexLe, h1, h2, h])

theorem lexLe_trans {a b c : List Nat} (h1 : lexLe a b = true)
    (h2 : lexLe b c = true) : lexLe a c = true := by
  induction a generalizing b c with
  | nil => rfl
  | cons x xs ih =>
    cases b with
    | nil => simp [lexLe] at h1
    | cons y ys =>
      cases c with
      | nil => simp [lexLe] at h2
      | cons z zs =>
        by_cases hxy : x < y
        · by_cases hyz : y < z
          · simp [lexLe, show x < z by omega]
          · by_cases hzy : z < y
            · simp [lexLe, hyz, hzy] at h2
            · have hyz' : y = z := by omega
              subst hyz'
              simp [lexLe, hxy]
        · by_cases hyx : y < x
          · simp [lexLe, hxy, hyx] at h1
          · have hxy' : x = y := by omega
            subst hxy'
            simp only [lexLe, lt_irrefl, if_false] at h1
            by_cases hyz : x < z
            · simp [lexLe, hyz]
            · by_cases hzy : z < x
              · simp [lexLe, hyz, hzy] at h2
              · have hxz : x = z := by omega
                subst hxz
                simp only [lexLe, lt_irrefl, if_false] at h2 ⊢
                exact ih h1 h2

theorem lexLe_antisymm {a b : List Nat} (h1 : lexLe a b = true)
    (h2 : lexLe b a = true) : a = b := by
  induction a generalizing b with
  | nil =>
    cases b with
    | nil => rfl
    | cons y ys => simp [lexLe] at h2
  | cons x xs ih =>
    cases b with
    | nil => simp [lexLe] at h1
    | cons y ys =>
      by_cases hxy : x < y
      · simp [lexLe, hxy, show ¬(y < x) by omega] at h2
      · by_cases hyx : y < x
        · simp [lexLe, hxy, hyx] at h1
        · have hxy' : x = y := by omega
          subst hxy'
          simp only [lexLe, lt_irrefl, if_false] at h1 h2
          rw [ih h1 h2]

theorem weight_inj {c d : Char} (hp : primaryWeight c = primaryWeight d)
    (ht : tertiaryWeight c = tertiaryWeight d) : c = d := by
  unfold primaryWeight at hp
  unfold tertiaryWeight at ht
  by_cases hc : (65 ≤ c.toNat && c.toNat ≤ 90) = true <;>
    by_cases hd : (65 ≤ d.toNat && d.toNat ≤ 90) = true <;>
    simp [hc, hd] at hp ht <;>
    exact Char.ext (UInt32.toNat.inj (show c.toNat = d.toNat by omega))

theorem weights_inj (l₁ l₂ : List Char)
    (hp : l₁.map primaryWeight = l₂.map primaryWeight)
    (ht : l₁.map tertiaryWeight = l₂.map tertiaryWeight) : l₁ = l₂ := by
  induction l₁ generalizing l₂ with
  | nil =>
    cases l₂ with
    | nil => rfl
    | cons d u => simp at hp
  | cons c t ih =>
    cases l₂ with
    | nil => simp at hp
    | cons d u =>
      simp only [List.map_cons, List.cons.injEq] at hp ht
      rw [weight_inj hp.1 ht.1, ih u hp.2 ht.2]

theorem locLe_total (a b : String) : locLe a b = true ∨ locLe b a = true := by
  unfold locLe
  by_cases h : a.data.map primaryWeight = b.data.map primaryWeight
  · simp only [h, if_pos rfl, if_true]
    exact lexLe_total _ _
  · have h' : ¬(b.data.map primaryWeight = a.data.map primaryWeight) :=
      fun e => h e.symm
    simp only [if_neg h, if_neg h']
    exact lexLe_total _ _

theorem locLe_trans {a b c : String} (h1 : locLe a b = true)
    (h2 : locLe b c = true) : locLe a c = true := by
  unfold locLe at h1 h2 ⊢
  by_cases hab : a.data.map primaryWeight = b.data.map primaryWeight <;>
    by_cases hbc : b.data.map primaryWeight = c.data.map primaryWeight
  · rw [if_pos hab] at h1
    rw [if_pos hbc] at h2
    rw [if_pos (hab.trans hbc)]
    exact lexLe_trans h1 h2
  · rw [if_pos hab] at h1
    rw [if_neg hbc] at h2
    rw [hab, if_neg hbc]
    exact h2
  · rw [if_neg hab] at h1
    rw [if_pos hbc] at h2
    have hac : ¬(a.data.map primaryWeight = c.data.map primaryWeight) := by
      intro e
      exact hab (e.trans hbc.symm)
    rw [if_neg hac, ← hbc]
    exact h1
  · rw [if_neg hab] at h1
    rw [if_neg hbc] at h2
    have hac : ¬(a.data.map primaryWeight = c.data.map primaryWeight) := by
      intro e
      exact hbc (lexLe_antisymm h2 (e ▸ h1))
    rw [if_neg hac]
    exact lexLe_trans h1 h2

theorem locLe_antisymm {a b : String} (h1 : locLe a b = true)
    (h2 : locLe b a = true) : a = b := by
  unfold locLe at h1 h2
  by_cases hab : a.data.map primaryWeight = b.data.map primaryWeight
  · rw [if_pos hab] at h1
    rw [if_pos hab.symm] at h2
    exact String.ext (weights_inj _ _ hab (lexLe_antisymm h1 h2))
  · have hba : ¬(b.data.map primaryWeight = a.data.map primaryWeight) :=
      fun e => hab e.symm
    rw [if_neg hab] at h1
    rw [if_neg hba] at h2
    exact absurd (lexLe_antisymm h1 h2) hab

theorem compiledLe_total (a b : Compiled) :
    compiledLe a b = true ∨ compiledLe b a = true := locLe_total _ _

theorem compiledLe_trans (a b c : Compiled) (h1 : compiledLe a b = true)
    (h2 : compiledLe b c = true) : compiledLe a c = true :=
  locLe_trans h1 h2

theorem compiledLe_antisymm_key (a b : Compiled) (h1 : compiledLe a b = true)
    (h2 : compiledLe b a = true) : a.componentName = b.componentName :=
  locLe_antisymm h1 h2

/-! ## Claim C8 helper lemmas: the stable sort -/

theorem perm_insertBy {α : Type} (le : α → α → Bool) (a : α) (l : List α) :
    List.Perm (insertBy le a l) (a :: l) := by
  induction l with
  | nil => exact List.Perm.refl _
  | cons b t ih =>
    unfold insertBy
    split
    · exact (ih.cons b).trans (List.Perm.swap a b t)
    · exact List.Perm.refl _

theorem pairwise_insertBy {α : Type} (le : α → α → Bool)
    (htot : ∀ x y, le x y = true ∨ le y x = true)
    (htrans : ∀ x y z, le x y = true → le y z = true → le x z = true)
    (a : α) (l : List α) (h : l.Pairwise (fun x y => le x y = true)) :
    (insertBy le a l).Pairwise (fun x y => le x y = true) := by
  induction l with
  | nil => simp [insertBy]
  | cons b t ih =>
    obtain ⟨hb, ht⟩ := List.pairwise_cons.1 h
    unfold insertBy
    split
    · rename_i hba
      refine List.pairwise_cons.2 ⟨?_, ih ht⟩
      intro x hx
      rcases List.mem_cons.1 ((perm_insertBy le a t).mem_iff.1 hx) with h' | h'
      · rw [h']
        exact hba
      · exact hb x h'
    · rename_i hba
      have hab : le a b = true := by
        rcases htot a b with h' | h'
        · exact h'
        · exact absurd h' hba
      refine List.pairwise_cons.2 ⟨?_, h⟩
      intro x hx
      rcases List.mem_cons.1 hx with h' | h'
      · rw [h']
        exact hab
      · exact htrans a b x hab (hb x h')

theorem foldl_insertBy_perm {α : Type} (le : α → α → Bool) (l acc : List α) :
    List.Perm (List.foldl (fun acc a => insertBy le a acc) acc l) (acc ++ l) := by
  induction l generalizing acc with
  | nil => simp
  | cons a t ih =>
    simp only [List.foldl_cons]
    refine (ih (insertBy le a acc)).trans ?_
    refine (((perm_insertBy le a acc).append_right t).trans ?_)
    exact List.perm_middle.symm

theorem sortBy_perm {α : Type} (le : α → α → Bool) (l : List α) :
    List.Perm (sortBy le l) l := by
  simpa using foldl_insertBy_perm le l []

theorem foldl_insertBy_pairwise {α : Type} (le : α → α → Bool)
    (htot : ∀ x y, le x y = true ∨ le y x = true)
    (htrans : ∀ x y z, le x y = true → le y z = true → le x z = true)
    (l acc : List α) (h : acc.Pairwise (fun x y => le x y = true)) :
    (List.foldl (fun acc a => insertBy le a acc) acc l).Pairwise
      (fun x y => le x y = true) := by
  induction l generalizing acc with
  | nil => exact h
  | cons a t ih =>
    simp only [List.foldl_cons]
    exact ih _ (pairwise_insertBy le htot htrans a acc h)

theorem sortBy_pairwise {α : Type} (le : α → α → Bool)
    (htot : ∀ x y, le x y = true ∨ le y x = true)
    (htrans : ∀ x y z, le x y = true → le y z = true → le x z = true)
    (l : List α) :
    (sortBy le l).Pairwise (fun x y => le x y = true) :=
  foldl_insertBy_pairwise le htot htrans l [] (by simp)

theorem eq_of_perm_pairwise_nodupkeys {α β : Type} (le : α → α → Bool)
    (key : α → β)
    (hanti : ∀ x y, le x y = true → le y x = true → key x = key y) :
    ∀ l₁ l₂ : List α, List.Perm l₁ l₂ →
      l₁.Pairwise (fun x y => le x y = true) →
      l₂.Pairwise (fun x y => le x y = true) →
      (l₁.map key).Nodup → l₁ = l₂ := by
  intro l₁
  induction l₁ with
  | nil =>
    intro l₂ hp _ _ _
    have := hp.length_eq
    cases l₂ with
    | nil => rfl
    | cons b u => simp at this
  | cons a t ih =>
    intro l₂ hp h₁ h₂ hnd
    cases l₂ with
    | nil =>
      have := hp.length_eq
      simp at this
    | cons b u =>
      by_cases hab : a = b
      · subst hab
        have htail := hp.cons_inv
        have hndt : (t.map key).Nodup := by
          simp only [List.map_cons, List.nodup_cons] at hnd
          exact hnd.2
        rw [ih u htail h₁.of_cons h₂.of_cons hndt]
      · exfalso
        have hamem : a ∈ b :: u := hp.subset (by simp)
        have hbmem : b ∈ a :: t := hp.symm.subset (by simp)
        have hbt : b ∈ t := by
          rcases List.mem_cons.1 hbmem with h' | h'
          · exact absurd h'.symm hab
          · exact h'
        have hau : a ∈ u := by
          rcases List.mem_cons.1 hamem with h' | h'
          · exact absurd h' hab
          · exact h'
        have hle1 : le a b = true := (List.pairwise_cons.1 h₁).1 b hbt
        have hle2 : le b a = true := (List.pairwise_cons.1 h₂).1 a hau
        have hkey : key a = key b := hanti a b hle1 hle2
        have hin : key a ∈ t.map key := hkey ▸ List.mem_map_of_mem key hbt
        simp only [List.map_cons, List.nodup_cons] at hnd
        exact hnd.1 hin

/-! ## Claim C8 helper lemmas: trimming the output artifact -/

theorem dropWhile_append_all (w l : List Char)
    (hw : ∀ c ∈ w, isJsWs c = true) :
    (w ++ l).dropWhile isJsWs = l.dropWhile isJsWs := by
  induction w with
  | nil => rfl
  | cons c t ih =>
    simp only [List.cons_append, List.dropWhile_cons, hw c (by simp), if_true]
    exact ih (fun d hd => hw d (List.mem_cons_of_mem c hd))

theorem jsTrim_concat (pre mid suf : String)
    (hpre : ∀ c ∈ pre.data, isJsWs c = true)
    (hsuf : ∀ c ∈ suf.data, isJsWs c = true)
    (hhead : ∃ c t, mid.data = c :: t ∧ isJsWs c = false)
    (hlast : ∃ y cl, mid.data = y ++ [cl] ∧ isJsWs cl = false) :
    jsTrim (pre ++ mid ++ suf) = mid := by
  obtain ⟨c, t, hct, hc⟩ := hhead
  obtain ⟨y, cl, hycl, hcl⟩ := hlast
  unfold jsTrim
  have hdata : (pre ++ mid ++ suf).data =
      pre.data ++ (mid.data ++ suf.data) := by
    simp [List.append_assoc]
  rw [hdata, dropWhile_append_all _ _ hpre]
  have h1 : (mid.data ++ suf.data).dropWhile isJsWs =
      mid.data ++ suf.data := by
    rw [hct, List.cons_append, List.dropWhile_cons, hc]
    simp
  rw [h1, List.reverse_append,
    dropWhile_append_all _ _ (fun c' hc' => hsuf c' (List.mem_reverse.1 hc'))]
  have h2 : mid.data.reverse.dropWhile isJsWs = mid.data.reverse := by
    rw [hycl, List.reverse_append, List.reverse_singleton, List.singleton_append,
      List.dropWhile_cons, hcl]
    simp
  rw [h2, List.reverse_reverse]

theorem makeGeneric_split (pts : List Compiled) :
    ∃ e, makeGenericCreateComponentFunctionCode pts = e ++ "\n\x7d" := by
  refine ⟨genericJsdoc pts ++ "\nexport " ++
    ("function " ++ genericComponentFunctionName ++ "(" ++
      joinWith (", ") ["dom", "componentName"] ++ ") \x7b\n" ++
      joinWith ("\n") ((dispatchLines pts).map (fun l => "  " ++ l))), ?_⟩
  simp [makeGenericCreateComponentFunctionCode, createFunctionCode,
    String.append_assoc]

theorem compileTemplate_componentName (t : Tmpl) :
    (compileTemplate t).componentName = t.id := rfl

/-- C8: the per-template functions appear in the output artifact in
ascending comparator order of their identifiers (the embedded
`localeCompare` order, primary case-insensitive with lowercase-first
tie-break), this emission order is the same for any order of appearance
of the templates in the source document, and the emitted artifact is the
fixed header followed by the sorted function codes followed by the
dispatcher. -/
theorem C8_sorted_output (ts ts' : List Tmpl) (hperm : List.Perm ts ts')
    (hnodup : (ts.map (fun t => t.id)).Nodup) :
    (sortedTemplates ts).Pairwise (fun a b => compiledLe a b = true) ∧
    sortedTemplates ts = sortedTemplates ts' ∧
    mainCode ts = mainHeader ++
      joinWith ("\n") ((sortedTemplates ts).map (fun t => t.functionCode)) ++
      "\n\n    " ++
      makeGenericCreateComponentFunctionCode (sortedTemplates ts) := by
  have htrans : ∀ x y z : Compiled, compiledLe x y = true →
      compiledLe y z = true → compiledLe x z = true := compiledLe_trans
  have hpair := sortBy_pairwise compiledLe compiledLe_total htrans
    (ts.map compileTemplate)
  refine ⟨hpair, ?_, ?_⟩
  · have hpair' := sortBy_pairwise compiledLe compiledLe_total htrans
      (ts'.map compileTemplate)
    have hperm1 : List.Perm (sortedTemplates ts) (sortedTemplates ts') :=
      ((sortBy_perm _ _).trans (hperm.map compileTemplate)).trans
        (sortBy_perm _ _).symm
    have hkeysperm : List.Perm
        ((sortedTemplates ts).map (fun u => u.componentName))
        (ts.map (fun t => t.id)) := by
      have h1 := (sortBy_perm compiledLe (ts.map compileTemplate)).map
        (fun u => u.componentName)
      simpa [List.map_map, Function.comp] using h1
    have hkeysnodup :
        (((sortedTemplates ts)).map (fun u => u.componentName)).Nodup :=
      hkeysperm.nodup_iff.2 hnodup
    exact eq_of_perm_pairwise_nodupkeys compiledLe (fun u => u.componentName)
      compiledLe_antisymm_key _ _ hperm1 hpair hpair' hkeysnodup
  · show jsTrim (rawMainCode ts) = _
    have hassoc : rawMainCode ts = "\n    " ++
        (mainHeader ++
          joinWith ("\n") ((sortedTemplates ts).map (fun t => t.functionCode)) ++
          "\n\n    " ++
          makeGenericCreateComponentFunctionCode (sortedTemplates ts)) ++
        "\n  " := by
      simp [rawMainCode, String.append_assoc]
    rw [hassoc]
    apply jsTrim_concat
    · decide
    · decide
    · obtain ⟨mh, hmh⟩ : ∃ l, mainHeader.data = Char.ofNat 39 :: l :=
        ⟨mainHeader.data.tail, by decide⟩
      refine ⟨Char.ofNat 39, mh ++
        ((joinWith ("\n")
          ((sortedTemplates ts).map (fun t => t.functionCode))).data ++
          (("\n\n    " : String).data ++
            (makeGenericCreateComponentFunctionCode (sortedTemplates ts)).data)),
        ?_, by decide⟩
      simp only [String.data_append, List.append_assoc, hmh, List.cons_append]
    · obtain ⟨e, he⟩ := makeGeneric_split (sortedTemplates ts)
      have hnl : ("\n\x7d" : String).data = [Char.ofNat 10, Char.ofNat 125] := by
        decide
      refine ⟨mainHeader.data ++
        ((joinWith ("\n")
          ((sortedTemplates ts).map (fun t => t.functionCode))).data ++
          (("\n\n    " : String).data ++ (e.data ++ [Char.ofNat 10]))),
        Char.ofNat 125, ?_, by decide⟩
      rw [he]
      simp only [String.data_append, List.append_assoc, hnl]
      simp

/-- C8 witness: order-independence evaluated on two concrete templates
supplied in both orders. -/
theorem C8_witness :
    sortedTemplates [{ id := "b", content := .nil }, { id := "a", content := .nil }] =
      sortedTemplates [{ id := "a", content := .nil }, { id := "b", content := .nil }] :=
  (C8_sorted_output
    [{ id := "b", content := .nil }, { id := "a", content := .nil }]
    [{ id := "a", content := .nil }, { id := "b", content := .nil }]
    (List.Perm.swap ({ id := "a", content := .nil } : Tmpl)
      ({ id := "b", content := .nil } : Tmpl) [])
    (by decide)).2.1
